import Mathlib

/-!
Shallow embedding of the falling-block puzzle engine of `newtube`
(`frontend/src/TetrisGame.jsx`).  The board is a list of rows of natural
numbers (0 = empty, 1..7 = locked piece colour), the active piece is a
shape matrix together with an integer origin, and every operation of the
source (`collides`, `merge`, `rotate`, `move`, `drop`, `sweepLines`,
`newPiece`, `handleKeyDown`, `gameLoop`) is translated to a pure function.
JavaScript out-of-range array reads (`board[r]` / `board[r][c]` giving
`undefined`) are modelled with `Option`; the random piece choice of
`newPiece` is modelled by passing the chosen type id as an argument.
-/

namespace Newtube

def COLS : Nat := 10

def ROWS : Nat := 20

abbrev Row := List Nat

abbrev Board := List Row

/-- The `SHAPES` table of the source; index 0 is the unused empty shape. -/
def SHAPES : List (List (List Nat)) :=
  [[],
   [[1, 1, 1, 1]],
   [[2, 2], [2, 2]],
   [[0, 3, 3], [3, 3, 0]],
   [[4, 4, 0], [0, 4, 4]],
   [[0, 5, 0], [5, 5, 5]],
   [[6, 0, 0], [6, 6, 6]],
   [[0, 0, 7], [7, 7, 7]]]

structure Piece where
  shape : List (List Nat)
  x : Int
  y : Int
deriving Repr, DecidableEq

structure GameState where
  board : Board
  piece : Piece
  score : Nat
  gameOver : Bool
  dropCounter : Int
deriving Repr, DecidableEq

/-- JavaScript `board[r]`: `undefined` (here `none`) off the ends. -/
def getRow (b : Board) (r : Int) : Option Row :=
  if r < 0 then none else b[r.toNat]?

/-- JavaScript `board[r] && board[r][c]` seen as an optional cell value:
`none` exactly when the read hits `undefined`. -/
def getCell (b : Board) (r c : Int) : Option Nat :=
  (getRow b r).bind fun row => if c < 0 then none else row[c.toNat]?

/-- The cell-level collision test of the source,
`(board[r] && board[r][c]) !== 0`: in JavaScript an out-of-range read
yields `undefined`, and `undefined !== 0` is `true`. -/
def cellBlocked (b : Board) (r c : Int) : Bool :=
  getCell b r c != some 0

/-- `collides()` from the source, as a function of board and piece. -/
def collides (b : Board) (p : Piece) : Bool :=
  p.shape.enum.any fun pr =>
    pr.2.enum.any fun pc =>
      pc.2 != 0 && cellBlocked b (p.y + pr.1) (p.x + pc.1)

/-- In-bounds write `board[r][c] = v`.  On the reachable states of the
game the write of `merge` is always in bounds (the merged piece does not
collide), so ignoring out-of-range writes is faithful to the source. -/
def setCell (b : Board) (r c : Int) (v : Nat) : Board :=
  if r < 0 || c < 0 then b
  else b.set r.toNat ((b[r.toNat]?.getD []).set c.toNat v)

/-- `merge()` from the source: writes every nonzero shape cell into the
board at the piece's position. -/
def merge (b : Board) (p : Piece) : Board :=
  p.shape.enum.foldl
    (fun acc pr =>
      pr.2.enum.foldl
        (fun acc2 pc =>
          if pc.2 > 0 then setCell acc2 (p.y + pr.1) (p.x + pc.1) pc.2 else acc2)
        acc)
    b

/-- The rotated matrix computed by `rotate()`:
`shape[0].map((_, c) => shape.map(row => row[c]).reverse())`. -/
def rotateCW (s : List (List Nat)) : List (List Nat) :=
  (List.range (s.headD []).length).map fun c =>
    (s.map fun row => row.getD c 0).reverse

/-- The kick-search `while` loop of `rotate()`.  The source loop has no
fuel; `rotate` below supplies fuel `w + 2`, which is enough for the loop
to accept or abandon (the alternating offsets reach a positive value
above `w` within `w + 1` shifts), so the fueled function agrees with the
source loop. -/
def kickLoop (b : Board) (origShape : List (List Nat)) (origX : Int) (w : Nat) :
    Nat → Piece → Int → Piece
  | 0, p, _ => { p with shape := origShape, x := origX }
  | fuel + 1, p, offset =>
    if collides b p then
      let p' : Piece := { p with x := p.x + offset }
      let offset' : Int := -(offset + (if offset > 0 then 1 else -1))
      if offset' > (w : Int) then { p' with shape := origShape, x := origX }
      else kickLoop b origShape origX w fuel p' offset'
    else p

/-- `rotate()` from the source: try the rotated shape, kick-searching
horizontal offsets, restoring shape and origin on failure. -/
def rotate (b : Board) (p : Piece) : Piece :=
  let ns := rotateCW p.shape
  let w := (ns.headD []).length
  kickLoop b p.shape p.x w (w + 2) { p with shape := ns } 1

/-- `move(dir)` from the source: shift `origin.x`, undo on collision. -/
def move (st : GameState) (dir : Int) : GameState :=
  let p' : Piece := { st.piece with x := st.piece.x + dir }
  if collides st.board p' then st else { st with piece := p' }

/-- A row is full when no cell is 0 (the inner loop of `sweepLines`). -/
def isFull (row : Row) : Bool :=
  row.all fun v => v != 0

def zeroRow : Row := List.replicate COLS 0

/-- The labelled `for` loop of `sweepLines()`: scan index `y` moves from
the bottom row towards row 1; a full row is spliced out, a zero row is
unshifted on top and the same index is re-examined.  The source loop has
no fuel; `sweepLines` supplies fuel `2 * length + 1`, which
`sweepLoop_spec` proves sufficient. -/
def sweepLoop (b : List Row) (y cleared : Nat) : Nat → List Row × Nat
  | 0 => (b, cleared)
  | fuel + 1 =>
    if y = 0 then (b, cleared)
    else if isFull (b.getD y []) then
      sweepLoop (zeroRow :: b.eraseIdx y) y (cleared + 1) fuel
    else
      sweepLoop b (y - 1) cleared fuel

/-- `sweepLines()` from the source, returning the swept board and the
number of cleared lines (the source applies the score update
`score += linesCleared * 10 * linesCleared` at its end; `drop` applies
the same update to the returned count). -/
def sweepLines (b : List Row) : List Row × Nat :=
  sweepLoop b (b.length - 1) 0 (2 * b.length + 1)

/-- The piece constructed by `newPiece()` for a given type id:
shape `SHAPES[typeId]`, origin `(floor(COLS/2) - floor(width/2), 0)`. -/
def spawnPiece (typeId : Nat) : Piece :=
  let shape := SHAPES.getD typeId []
  { shape := shape
    x := ((COLS / 2 : Nat) : Int) - (((shape.headD []).length / 2 : Nat) : Int)
    y := 0 }

/-- `newPiece()` from the source with the random type id as argument:
install the spawned piece and set `gameOver` when it already collides. -/
def newPiece (typeId : Nat) (st : GameState) : GameState :=
  let p := spawnPiece typeId
  let st' : GameState := { st with piece := p }
  if collides st'.board p then { st' with gameOver := true } else st'

/-- `drop()` from the source: descend one row; on collision undo, merge,
sweep, score, spawn the next piece; reset the gravity counter. -/
def drop (typeId : Nat) (st : GameState) : GameState :=
  let p1 : Piece := { st.piece with y := st.piece.y + 1 }
  if collides st.board p1 then
    let res := sweepLines (merge st.board st.piece)
    let score' := if 0 < res.2 then st.score + res.2 * 10 * res.2 else st.score
    let st1 := newPiece typeId { st with board := res.1, score := score' }
    { st1 with dropCounter := 0 }
  else
    { st with piece := p1, dropCounter := 0 }

inductive Key where
  | left
  | right
  | down
  | up
deriving Repr, DecidableEq

/-- `handleKeyDown` from the source (arrow keys; no-op once over). -/
def handleKeyDown (k : Key) (typeId : Nat) (st : GameState) : GameState :=
  if st.gameOver then st
  else
    match k with
    | .left => move st (-1)
    | .right => move st 1
    | .down => drop typeId st
    | .up => { st with piece := rotate st.board st.piece }

/-- Observable outcome of one `gameLoop` invocation: the new state,
whether `draw()` ran, and whether another frame was scheduled via
`requestAnimationFrame`. -/
structure TickResult where
  state : GameState
  rendered : Bool
  schedulesNext : Bool
deriving Repr, DecidableEq

/-- One `gameLoop(time)` invocation; `delta` is `time - lastTime` and
`typeId` resolves the random piece should a lock occur. -/
def gameLoop (delta : Int) (typeId : Nat) (st : GameState) : TickResult :=
  if st.gameOver then ⟨st, true, false⟩
  else
    let st1 : GameState := { st with dropCounter := st.dropCounter + delta }
    let st2 := if st1.dropCounter > 1000 then drop typeId st1 else st1
    ⟨st2, true, true⟩

def emptyBoard : Board := List.replicate ROWS zeroRow

/-- The state right after module initialisation: empty board, score 0,
then `newPiece()`. -/
def initState (typeId : Nat) : GameState :=
  newPiece typeId
    { board := emptyBoard
      piece := { shape := [], x := 0, y := 0 }
      score := 0
      gameOver := false
      dropCounter := 0 }

/-- One externally triggered event: a key press or a loop tick.  The
type id carried by each event resolves `Math.random()` of `newPiece`. -/
inductive Event where
  | key (k : Key) (typeId : Nat)
  | tick (delta : Int) (typeId : Nat)

def applyEvent (e : Event) (st : GameState) : GameState :=
  match e with
  | .key k typeId => handleKeyDown k typeId st
  | .tick delta typeId => (gameLoop delta typeId st).state

def applyEvents (l : List Event) (st : GameState) : GameState :=
  l.foldl (fun s e => applyEvent e s) st

/-- Every event's type id comes from
`Math.floor(Math.random() * 7) + 1 ∈ {1,…,7}`. -/
def Event.valid : Event → Prop
  | .key _ typeId => 1 ≤ typeId ∧ typeId ≤ 7
  | .tick _ typeId => 1 ≤ typeId ∧ typeId ≤ 7

/-- The states the running game can reach: an initial spawn followed by
any sequence of key events and loop ticks. -/
inductive Reachable : GameState → Prop where
  | init (typeId : Nat) (h1 : 1 ≤ typeId) (h2 : typeId ≤ 7) :
      Reachable (initState typeId)
  | step (st : GameState) (e : Event) (hv : e.valid) (h : Reachable st) :
      Reachable (applyEvent e st)

/-- A wellformed row: `COLS` cells, each a valid cell value `0..7`. -/
def rowOk (row : Row) : Prop :=
  row.length = COLS ∧ ∀ v ∈ row, v ≤ 7

/-- A wellformed board: `ROWS` wellformed rows. -/
def boardOk (b : Board) : Prop :=
  b.length = ROWS ∧ ∀ row ∈ b, rowOk row

/-- All cell values of a shape matrix are valid. -/
def shapeOk (s : List (List Nat)) : Prop :=
  ∀ row ∈ s, ∀ v ∈ row, v ≤ 7

instance (row : Row) : Decidable (rowOk row) := by unfold rowOk; infer_instance

instance (b : Board) : Decidable (boardOk b) := by unfold boardOk; infer_instance

instance (s : List (List Nat)) : Decidable (shapeOk s) := by unfold shapeOk; infer_instance

def stateOk (st : GameState) : Prop :=
  boardOk st.board ∧ shapeOk st.piece.shape

/-- A state about to lock: the board has row 19 full except columns 0
and 1, and the O piece rests at the bottom left, completing row 19. -/
def lockSt : GameState :=
  { board := (List.replicate 20 zeroRow).set 19 [0, 0, 1, 1, 1, 1, 1, 1, 1, 1]
    piece := { shape := [[2, 2], [2, 2]], x := 0, y := 18 }
    score := 0
    gameOver := false
    dropCounter := 7 }

/-- A finished game: full spawn area, `gameOver` already raised. -/
def overSt : GameState :=
  { board := emptyBoard
    piece := spawnPiece 1
    score := 30
    gameOver := true
    dropCounter := 5 }

/-- The cell-collision rule as the spec words it: a cell collides when
its column is outside `[0, COLS)` or the target grid cell is nonzero,
while a row index outside `[0, ROWS)` alone never causes a collision. -/
def specCellCollides (b : Board) (r c : Int) : Bool :=
  if c < 0 || (COLS : Int) ≤ c then true
  else if r < 0 || (ROWS : Int) ≤ r then false
  else getCell b r c != some 0

/-- The transpose of a rectangular matrix, written as the spec reads:
column `c` of the input becomes row `c` of the output. -/
def transposeM (s : List (List Nat)) : List (List Nat) :=
  (List.range (s.headD []).length).map fun c =>
    s.map fun row => row.getD c 0

/-- Total cell access used to reason about shape matrices. -/
def cellOf (s : List (List Nat)) (i j : Nat) : Nat :=
  (s.getD i []).getD j 0

/-- Net horizontal displacement of the kick search after its first `j`
shifts: the cumulative sum of the offsets `+1, -2, +3, -4, …` is
`0, +1, -1, +2, -2, …`. -/
def disp (j : Nat) : Int :=
  if j % 2 = 0 then -((j / 2 : Nat) : Int) else (((j + 1) / 2 : Nat) : Int)

/-- The offset the kick search is about to apply when standing at its
`j`-th position: `+1, -2, +3, -4, …`. -/
def off (j : Nat) : Int :=
  if j % 2 = 0 then (j : Int) + 1 else -((j : Int) + 1)

/-- Number of positions the kick loop actually tests before abandoning:
the abandon check fires on the first generated positive offset exceeding
the width, and before the freshly shifted position is re-tested. -/
def kickCount (w : Nat) : Nat := 2 * ((w + 1) / 2)

/-- The horizontal positions the kick loop tests, in order. -/
def triedXs (w : Nat) (x0 : Int) : List Int :=
  (List.range (kickCount w)).map fun j => x0 + disp j

/-- The positions the claimed kick search would test: the origin and
then every cumulative offset whose magnitude stays within the rotated
width (`w + 1` positions in all). -/
def claimTriedXs (w : Nat) (x0 : Int) : List Int :=
  (List.range (w + 1)).map fun j => x0 + disp j

/-- `rotate()` as the spec claims it behaves: accept the first
non-colliding position among the origin and the cumulative offsets of
magnitude at most the rotated width, otherwise restore. -/
def rotateClaimed (b : Board) (p : Piece) : Piece :=
  match (claimTriedXs ((rotateCW p.shape).headD []).length p.x).find?
      (fun q => !collides b ⟨rotateCW p.shape, q, p.y⟩) with
  | some q => ⟨rotateCW p.shape, q, p.y⟩
  | none => p

/-- Board with a single filled cell at row 18, column 5. -/
def kickCexBoard : Board := (List.replicate 20 zeroRow).set 18 (zeroRow.set 5 1)

/-- The O piece resting at `(4, 18)` next to that cell. -/
def kickCexPiece : Piece := ⟨[[2, 2], [2, 2]], 4, 18⟩

/-- Board whose top row (all 1) and bottom row (all 2) are full. -/
def sweepCexBoard : Board :=
  ((List.replicate 20 zeroRow).set 0 (List.replicate 10 1)).set 19
    (List.replicate 10 2)

/-! ### Basic facts about the small operations -/

theorem newPiece_score (typeId : Nat) (st : GameState) :
    (newPiece typeId st).score = st.score := by
  by_cases h : collides st.board (spawnPiece typeId) <;> simp [newPiece, h]

theorem newPiece_board (typeId : Nat) (st : GameState) :
    (newPiece typeId st).board = st.board := by
  by_cases h : collides st.board (spawnPiece typeId) <;> simp [newPiece, h]

theorem newPiece_piece (typeId : Nat) (st : GameState) :
    (newPiece typeId st).piece = spawnPiece typeId := by
  by_cases h : collides st.board (spawnPiece typeId) <;> simp [newPiece, h]

theorem newPiece_gameOver (typeId : Nat) (st : GameState) :
    (newPiece typeId st).gameOver =
      (st.gameOver || collides st.board (spawnPiece typeId)) := by
  by_cases h : collides st.board (spawnPiece typeId) <;> simp [newPiece, h]

/-! ### C4: scoring of a lock -/

/-- C4: a drop that locks and clears `n` lines increases the score by
exactly `n * 10 * n` (so 10/40/90/160 for 1/2/3/4 lines, and 0 for a
lock that clears nothing), and a plain descent leaves the score
unchanged. -/
theorem drop_score_delta (typeId : Nat) (st : GameState) :
    (drop typeId st).score =
      st.score +
        (if collides st.board { st.piece with y := st.piece.y + 1 } then
           (sweepLines (merge st.board st.piece)).2 * 10 *
             (sweepLines (merge st.board st.piece)).2
         else 0) := by
  by_cases h : collides st.board { st.piece with y := st.piece.y + 1 }
  · simp only [drop, h, if_true, newPiece_score]
    by_cases h2 : 0 < (sweepLines (merge st.board st.piece)).2
    · simp [h2]
    · simp only [Nat.not_lt, Nat.le_zero] at h2
      simp [h2]
  · simp [drop, h]

/-! ### C5: the drop tick -/

/-- C5: a drop tick increments `origin.y`; if the new position collides
it instead locks: the piece is merged at the undone position, the lines
are swept and the quadratic score delta applied, the next piece is
spawned (with `gameOver` set exactly when the spawn position collides on
the swept board), and in either case the gravity counter resets to 0. -/
theorem drop_step_spec (typeId : Nat) (st : GameState) :
    (collides st.board { st.piece with y := st.piece.y + 1 } = false →
       drop typeId st =
         { st with piece := { st.piece with y := st.piece.y + 1 },
                   dropCounter := 0 }) ∧
    (collides st.board { st.piece with y := st.piece.y + 1 } = true →
       (drop typeId st).board = (sweepLines (merge st.board st.piece)).1 ∧
       (drop typeId st).score =
         st.score +
           (sweepLines (merge st.board st.piece)).2 * 10 *
             (sweepLines (merge st.board st.piece)).2 ∧
       (drop typeId st).piece = spawnPiece typeId ∧
       (drop typeId st).gameOver =
         (st.gameOver ||
           collides (sweepLines (merge st.board st.piece)).1 (spawnPiece typeId)) ∧
       (drop typeId st).dropCounter = 0) := by
  constructor
  · intro h
    simp [drop, h]
  · intro h
    refine ⟨?_, ?_, ?_, ?_, ?_⟩
    · simp [drop, h, newPiece_board]
    · simp only [drop, h, if_true, newPiece_score]
      by_cases h2 : 0 < (sweepLines (merge st.board st.piece)).2
      · simp [h2]
      · simp only [Nat.not_lt, Nat.le_zero] at h2
        simp [h2]
    · simp [drop, h, newPiece_piece]
    · simp [drop, h, newPiece_gameOver]
    · simp [drop, h]

theorem drop_step_spec_witness :
    ((drop 1 lockSt).board = (sweepLines (merge lockSt.board lockSt.piece)).1 ∧
     (drop 1 lockSt).score =
       lockSt.score +
         (sweepLines (merge lockSt.board lockSt.piece)).2 * 10 *
           (sweepLines (merge lockSt.board lockSt.piece)).2 ∧
     (drop 1 lockSt).piece = spawnPiece 1 ∧
     (drop 1 lockSt).gameOver =
       (lockSt.gameOver ||
         collides (sweepLines (merge lockSt.board lockSt.piece)).1 (spawnPiece 1)) ∧
     (drop 1 lockSt).dropCounter = 0) ∧
    drop 2 (initState 2) =
      { initState 2 with
          piece := { (initState 2).piece with y := (initState 2).piece.y + 1 },
          dropCounter := 0 } :=
  ⟨(drop_step_spec 1 lockSt).2 (by decide),
   (drop_step_spec 2 (initState 2)).1 (by decide)⟩

/-! ### C8: `gameOver` is terminal -/

/-- C8: once `gameOver` holds, any further sequence of key events and
loop ticks leaves the whole state (board, piece, score) unchanged, and a
loop invocation performs one final render and schedules no further
iteration. -/
theorem gameOver_terminal (st : GameState) (h : st.gameOver = true) :
    (∀ l : List Event, applyEvents l st = st) ∧
    (∀ delta typeId, gameLoop delta typeId st = ⟨st, true, false⟩) ∧
    (∀ k typeId, handleKeyDown k typeId st = st) := by
  have he : ∀ e, applyEvent e st = st := by
    intro e
    cases e with
    | key k typeId => simp [applyEvent, handleKeyDown, h]
    | tick delta typeId => simp [applyEvent, gameLoop, h]
  refine ⟨?_, ?_, ?_⟩
  · intro l
    induction l with
    | nil => rfl
    | cons e tl ih =>
      show applyEvents tl (applyEvent e st) = st
      rw [he e]
      exact ih
  · intro delta typeId
    simp [gameLoop, h]
  · intro k typeId
    simp [handleKeyDown, h]

theorem gameOver_terminal_witness :
    applyEvents [Event.key Key.left 1, Event.tick 2000 3, Event.key Key.down 2] overSt =
      overSt ∧
    gameLoop 2000 1 overSt = ⟨overSt, true, false⟩ ∧
    handleKeyDown Key.up 1 overSt = overSt :=
  ⟨(gameOver_terminal overSt rfl).1 _,
   (gameOver_terminal overSt rfl).2.1 2000 1,
   (gameOver_terminal overSt rfl).2.2 Key.up 1⟩

/-! ### C9: `move` and the left-clamp scenario -/

/-- C9: `move` shifts `origin.x` by the direction and reverts to the
exact previous state when the shifted position collides; concretely, the
O piece spawns at `(4, 0)` on the empty board, four left moves bring
`x` to 0 and a fifth left move is a no-op. -/
theorem move_spec :
    (∀ (st : GameState) (d : Int),
        (collides st.board { st.piece with x := st.piece.x + d } = true →
           move st d = st) ∧
        (collides st.board { st.piece with x := st.piece.x + d } = false →
           move st d = { st with piece := { st.piece with x := st.piece.x + d } })) ∧
    (initState 2).piece.shape = [[2, 2], [2, 2]] ∧
    (initState 2).piece.x = 4 ∧
    (initState 2).piece.y = 0 ∧
    ((fun s => move s (-1))^[4] (initState 2)).piece.x = 0 ∧
    (fun s => move s (-1))^[5] (initState 2) =
      (fun s => move s (-1))^[4] (initState 2) := by
  refine ⟨?_, by decide, by decide, by decide, by decide, by decide⟩
  intro st d
  constructor <;> intro h <;> simp [move, h]

theorem move_spec_witness :
    move ((fun s => move s (-1))^[4] (initState 2)) (-1) =
      (fun s => move s (-1))^[4] (initState 2) :=
  (move_spec.1 ((fun s => move s (-1))^[4] (initState 2)) (-1)).1 (by decide)

/-! ### C1: the cell-level collision test -/

/-- On a wellformed board `getCell` is `none` exactly off the grid. -/
theorem getCell_eq_none_iff (b : Board) (r c : Int) (hb : boardOk b) :
    getCell b r c = none ↔
      r < 0 ∨ (ROWS : Int) ≤ r ∨ c < 0 ∨ (COLS : Int) ≤ c := by
  obtain ⟨hlen, hrows⟩ := hb
  have h20 : b.length = 20 := hlen
  unfold getCell getRow
  simp only [ROWS, COLS]
  by_cases hr0 : r < 0
  · simp [hr0]
  · by_cases hr1 : r.toNat < b.length
    · have hrow : b[r.toNat]? = some b[r.toNat] := List.getElem?_eq_getElem hr1
      have hmem : b[r.toNat] ∈ b := List.getElem_mem hr1
      have hrl : (b[r.toNat]).length = 10 := (hrows _ hmem).1
      simp only [hr0, if_false, hrow, Option.some_bind]
      by_cases hc0 : c < 0
      · simp [hc0]
      · by_cases hc1 : c.toNat < (b[r.toNat]).length
        · have hcell : b[r.toNat][c.toNat]? = some (b[r.toNat][c.toNat]) :=
            List.getElem?_eq_getElem hc1
          simp only [hc0, if_false, hcell]
          constructor
          · intro hcon
            exact Option.noConfusion hcon
          · intro hd
            exfalso
            rcases hd with h1 | h1 | h1 | h1 <;> first
            | exact h1
            | omega
        · have hcell : b[r.toNat][c.toNat]? = none := by
            rw [List.getElem?_eq_none_iff]
            omega
          simp only [hc0, if_false, hcell, true_iff]
          omega
    · have hnrow : b[r.toNat]? = none := by
        rw [List.getElem?_eq_none_iff]
        omega
      simp only [hr0, if_false, hnrow, Option.none_bind, true_iff]
      omega

/-- C1 counterexample: on the empty wellformed board, the source's
collision expression treats the out-of-range row 20 (column 0 in range)
as colliding — `board[20]` is `undefined` and `undefined !== 0` — while
the claim says such a cell never collides; consequently a one-cell piece
below the floor collides. -/
theorem cellBlocked_cex :
    cellBlocked emptyBoard 20 0 = true ∧
    specCellCollides emptyBoard 20 0 = false ∧
    collides emptyBoard { shape := [[1]], x := 0, y := 20 } = true := by
  decide

/-- C1 (amended): on a wellformed board, a prospective piece cell is
blocked exactly when its row index is outside `[0, ROWS)`, or its column
index is outside `[0, COLS)`, or the in-range target grid cell is
nonzero — vertical out-of-bounds does cause a collision. -/
theorem cellBlocked_iff (b : Board) (r c : Int) (hb : boardOk b) :
    cellBlocked b r c = true ↔
      r < 0 ∨ (ROWS : Int) ≤ r ∨ c < 0 ∨ (COLS : Int) ≤ c ∨
        ∃ v, getCell b r c = some v ∧ v ≠ 0 := by
  rcases h : getCell b r c with _ | v
  · have hnone := (getCell_eq_none_iff b r c hb).1 h
    constructor
    · intro _
      tauto
    · intro _
      simp [cellBlocked, h]
  · have hsome : ¬(r < 0 ∨ (ROWS : Int) ≤ r ∨ c < 0 ∨ (COLS : Int) ≤ c) := by
      intro hd
      have := (getCell_eq_none_iff b r c hb).2 hd
      rw [h] at this
      exact Option.noConfusion this
    constructor
    · intro hbt
      simp only [cellBlocked, h, bne_iff_ne, ne_eq, Option.some.injEq] at hbt
      exact Or.inr (Or.inr (Or.inr (Or.inr ⟨v, rfl, hbt⟩)))
    · intro hd
      rcases hd with h1 | h1 | h1 | h1 | ⟨w, hw, hw0⟩
      · exact absurd (Or.inl h1) hsome
      · exact absurd (Or.inr (Or.inl h1)) hsome
      · exact absurd (Or.inr (Or.inr (Or.inl h1))) hsome
      · exact absurd (Or.inr (Or.inr (Or.inr h1))) hsome
      · have hvw : v = w := Option.some.inj hw
        subst hvw
        simp [cellBlocked, h, hw0]

/-! ### C6: the rotation is a clockwise quarter turn of order 4 -/

theorem rotateCW_length (s : List (List Nat)) :
    (rotateCW s).length = (s.headD []).length := by
  simp [rotateCW]

theorem rotateCW_rows_length (s : List (List Nat)) :
    ∀ row ∈ rotateCW s, row.length = s.length := by
  intro row hrow
  simp only [rotateCW, List.mem_map] at hrow
  obtain ⟨c, _, rfl⟩ := hrow
  simp

theorem headD_length_of_rect (s : List (List Nat)) (w : Nat) (hm : 0 < s.length)
    (hrect : ∀ row ∈ s, row.length = w) : (s.headD []).length = w := by
  cases s with
  | nil => simp at hm
  | cons r t => exact hrect r (List.mem_cons_self r t)

theorem cellOf_rotateCW (s : List (List Nat)) (i j : Nat)
    (hi : i < (s.headD []).length) (hj : j < s.length) :
    cellOf (rotateCW s) i j = cellOf s (s.length - 1 - j) i := by
  have hlen1 : i < (rotateCW s).length := by rw [rotateCW_length]; exact hi
  have hrow : (rotateCW s)[i] = (s.map fun row => row.getD i 0).reverse := by
    simp [rotateCW]
  have hj2 : j < ((s.map fun row => row.getD i 0).reverse).length := by simp [hj]
  have hj3 : s.length - 1 - j < s.length := by omega
  unfold cellOf
  rw [List.getD_eq_getElem _ _ hlen1, hrow,
    List.getD_eq_getElem _ _ (by simp [hj]), List.getElem_reverse]
  simp only [List.getElem_map, List.length_map]
  rw [List.getD_eq_getElem _ _ hj3]

set_option maxHeartbeats 1600000 in
theorem rotateCW_fourfold (s : List (List Nat)) (w : Nat) (hw : 0 < w)
    (hm : 0 < s.length) (hrect : ∀ row ∈ s, row.length = w) :
    rotateCW (rotateCW (rotateCW (rotateCW s))) = s := by
  have hhead : (s.headD []).length = w := headD_length_of_rect s w hm hrect
  have len1 : (rotateCW s).length = w := by rw [rotateCW_length, hhead]
  have rect1 := rotateCW_rows_length s
  have head1 : ((rotateCW s).headD []).length = s.length :=
    headD_length_of_rect _ _ (by omega) rect1
  have len2 : (rotateCW (rotateCW s)).length = s.length := by
    rw [rotateCW_length, head1]
  have rect2 := rotateCW_rows_length (rotateCW s)
  have head2 : ((rotateCW (rotateCW s)).headD []).length = w := by
    rw [headD_length_of_rect _ _ (by omega) rect2, len1]
  have len3 : (rotateCW (rotateCW (rotateCW s))).length = w := by
    rw [rotateCW_length, head2]
  have rect3 := rotateCW_rows_length (rotateCW (rotateCW s))
  have head3 : ((rotateCW (rotateCW (rotateCW s))).headD []).length = s.length := by
    rw [headD_length_of_rect _ _ (by omega) rect3, len2]
  have len4 : (rotateCW (rotateCW (rotateCW (rotateCW s)))).length = s.length := by
    rw [rotateCW_length, head3]
  have rect4 := rotateCW_rows_length (rotateCW (rotateCW (rotateCW s)))
  refine List.ext_getElem (by rw [len4]) ?_
  intro n h4n hsn
  have hn : n < s.length := hsn
  have hrow4 : (rotateCW (rotateCW (rotateCW (rotateCW s))))[n].length = w := by
    rw [rect4 _ (List.getElem_mem h4n), len3]
  have hrowS : s[n].length = w := hrect _ (List.getElem_mem hsn)
  refine List.ext_getElem (by rw [hrow4, hrowS]) ?_
  intro k hk4 hkS
  have hk : k < w := by rw [hrow4] at hk4; exact hk4
  have c4 : cellOf (rotateCW (rotateCW (rotateCW (rotateCW s)))) n k =
      cellOf (rotateCW (rotateCW (rotateCW s))) (w - 1 - k) n := by
    rw [cellOf_rotateCW _ n k (by rw [head3]; exact hn) (by rw [len3]; exact hk), len3]
  have c3 : cellOf (rotateCW (rotateCW (rotateCW s))) (w - 1 - k) n =
      cellOf (rotateCW (rotateCW s)) (s.length - 1 - n) (w - 1 - k) := by
    rw [cellOf_rotateCW _ _ _ (by rw [head2]; omega) (by rw [len2]; exact hn), len2]
  have c2 : cellOf (rotateCW (rotateCW s)) (s.length - 1 - n) (w - 1 - k) =
      cellOf (rotateCW s) k (s.length - 1 - n) := by
    rw [cellOf_rotateCW _ _ _ (by rw [head1]; omega) (by rw [len1]; omega), len1,
      show w - 1 - (w - 1 - k) = k by omega]
  have c1 : cellOf (rotateCW s) k (s.length - 1 - n) = cellOf s n k := by
    rw [cellOf_rotateCW _ _ _ (by rw [hhead]; exact hk) (by omega),
      show s.length - 1 - (s.length - 1 - n) = n by omega]
  have : cellOf (rotateCW (rotateCW (rotateCW (rotateCW s)))) n k = cellOf s n k := by
    rw [c4, c3, c2, c1]
  unfold cellOf at this
  rw [List.getD_eq_getElem _ _ h4n] at this
  rw [List.getD_eq_getElem _ _ hsn] at this
  rw [List.getD_eq_getElem _ _ hk4] at this
  rw [List.getD_eq_getElem _ _ hkS] at this
  exact this

/-- If the rotated shape does not collide in place, `rotate` simply
installs it: the kick loop exits before its first shift. -/
theorem rotate_of_not_collides (b : Board) (s : List (List Nat)) (x y : Int)
    (h : collides b ⟨rotateCW s, x, y⟩ = false) :
    rotate b ⟨s, x, y⟩ = ⟨rotateCW s, x, y⟩ := by
  show kickLoop b s x ((rotateCW s).headD []).length
      (((rotateCW s).headD []).length + 2) ⟨rotateCW s, x, y⟩ 1 = ⟨rotateCW s, x, y⟩
  rw [show ((rotateCW s).headD []).length + 2 =
    (((rotateCW s).headD []).length + 1) + 1 from rfl]
  rw [kickLoop]
  simp [h]

/-- C6: the rotation of `rotate()` is the 90° clockwise quarter turn —
the transpose with every row reversed — and four successive `rotate()`
calls that never hit a collision restore the piece exactly. -/
theorem rotate_fourfold (b : Board) (p : Piece) (w : Nat) (hw : 0 < w)
    (hm : 0 < p.shape.length) (hrect : ∀ row ∈ p.shape, row.length = w)
    (h1 : collides b ⟨rotateCW p.shape, p.x, p.y⟩ = false)
    (h2 : collides b ⟨rotateCW (rotateCW p.shape), p.x, p.y⟩ = false)
    (h3 : collides b ⟨rotateCW (rotateCW (rotateCW p.shape)), p.x, p.y⟩ = false)
    (h4 : collides b ⟨rotateCW (rotateCW (rotateCW (rotateCW p.shape))), p.x, p.y⟩ =
      false) :
    rotateCW p.shape = (transposeM p.shape).map List.reverse ∧
    rotate b (rotate b (rotate b (rotate b p))) = p := by
  constructor
  · simp [rotateCW, transposeM, List.map_map]
  · have hp : p = ⟨p.shape, p.x, p.y⟩ := rfl
    rw [hp, rotate_of_not_collides b p.shape p.x p.y h1,
      rotate_of_not_collides b (rotateCW p.shape) p.x p.y h2,
      rotate_of_not_collides b (rotateCW (rotateCW p.shape)) p.x p.y h3,
      rotate_of_not_collides b (rotateCW (rotateCW (rotateCW p.shape))) p.x p.y h4,
      rotateCW_fourfold p.shape w hw hm hrect]

theorem rotate_fourfold_witness :
    (rotateCW (spawnPiece 3).shape =
      (transposeM (spawnPiece 3).shape).map List.reverse) ∧
    rotate emptyBoard
        (rotate emptyBoard (rotate emptyBoard (rotate emptyBoard (spawnPiece 3)))) =
      spawnPiece 3 :=
  rotate_fourfold emptyBoard (spawnPiece 3) 3 (by decide) (by decide) (by decide)
    (by decide) (by decide) (by decide) (by decide)

theorem cellBlocked_iff_witness :
    boardOk emptyBoard ∧
    (cellBlocked emptyBoard 20 3 = true ↔
      (20 : Int) < 0 ∨ (ROWS : Int) ≤ 20 ∨ (3 : Int) < 0 ∨ (COLS : Int) ≤ 3 ∨
        ∃ v, getCell emptyBoard 20 3 = some v ∧ v ≠ 0) :=
  ⟨by decide, cellBlocked_iff emptyBoard 20 3 (by decide)⟩

/-! ### C2 and C10: the kick search of `rotate()` -/

theorem disp_succ (j : Nat) : disp (j + 1) = disp j + off j := by
  unfold disp off
  rcases Nat.mod_two_eq_zero_or_one j with h | h
  · rw [if_pos h, if_pos h, if_neg (show ¬(j + 1) % 2 = 0 by omega)]
    omega
  · rw [if_neg (show ¬j % 2 = 0 by omega), if_neg (show ¬j % 2 = 0 by omega),
      if_pos (show (j + 1) % 2 = 0 by omega)]
    omega

theorem off_step (j : Nat) :
    -(off j + (if off j > 0 then 1 else -1)) = off (j + 1) := by
  unfold off
  rcases Nat.mod_two_eq_zero_or_one j with h | h
  · rw [if_pos h, if_neg (show ¬(j + 1) % 2 = 0 by omega),
      if_pos (show ((j : Int) + 1) > 0 by omega)]
    omega
  · rw [if_neg (show ¬j % 2 = 0 by omega),
      if_pos (show (j + 1) % 2 = 0 by omega),
      if_neg (show ¬(-((j : Int) + 1)) > 0 by omega)]
    omega

theorem off_gt_iff (w j : Nat) (hj : j < kickCount w) :
    off (j + 1) > (w : Int) ↔ j + 1 = kickCount w := by
  unfold off kickCount at *
  rcases Nat.mod_two_eq_zero_or_one (j + 1) with h | h
  · rw [if_pos h]
    omega
  · rw [if_neg (by omega)]
    constructor
    · intro hc
      exfalso
      omega
    · intro hc
      omega

/-- Closed form of the kick loop: starting at its `j`-th position with
the matching pending offset, it returns the first non-colliding tested
position, or restores shape and origin when all tested positions
collide.  The fuel hypothesis shows any fuel beyond the abandon point
gives the same answer. -/
theorem kickLoop_go (b : Board) (s : List (List Nat)) (x0 : Int) (w : Nat)
    (ns : List (List Nat)) (y : Int) :
    ∀ (fuel j : Nat), j < kickCount w → kickCount w - j < fuel →
      kickLoop b s x0 w fuel ⟨ns, x0 + disp j, y⟩ (off j) =
        (match ((List.range' j (kickCount w - j)).map fun t => x0 + disp t).find?
            (fun q => !collides b ⟨ns, q, y⟩) with
         | some q => ⟨ns, q, y⟩
         | none => ⟨s, x0, y⟩) := by
  intro fuel
  induction fuel with
  | zero =>
    intro j hj hfuel
    omega
  | succ f ih =>
    intro j hj hfuel
    have hsplit : kickCount w - j = (kickCount w - (j + 1)) + 1 := by omega
    rw [hsplit, List.range'_succ]
    simp only [kickLoop, List.map_cons, List.find?_cons]
    by_cases hc : collides b ⟨ns, x0 + disp j, y⟩
    · simp only [hc, if_true, Bool.not_true]
      rw [show (⟨ns, x0 + disp j, y⟩ : Piece).x + off j = x0 + disp (j + 1) by
        show x0 + disp j + off j = x0 + disp (j + 1)
        rw [disp_succ]
        ring]
      rw [off_step j]
      by_cases hend : j + 1 = kickCount w
      · rw [if_pos ((off_gt_iff w j hj).2 hend)]
        have hrest : kickCount w - (j + 1) = 0 := by omega
        rw [hrest]
        simp [List.range']
      · rw [if_neg fun hgt => hend ((off_gt_iff w j hj).1 hgt)]
        rw [ih (j + 1) (by omega) (by omega)]
    · simp only [hc, if_false, Bool.not_false]
      rfl

/-- Rotating a shape whose rotation has width 0 rotates the empty
matrix: the rotated rows all have the original length, so a zero-width
first row forces an empty original and hence an empty rotation. -/
theorem rotateCW_eq_nil_of_headD_len_zero (s : List (List Nat))
    (h : ((rotateCW s).headD []).length = 0) : rotateCW s = [] := by
  cases hr : rotateCW s with
  | nil => rfl
  | cons r t =>
    exfalso
    have hrl : r.length = s.length := rotateCW_rows_length s r (by rw [hr]; simp)
    have hr0 : r.length = 0 := by rw [hr] at h; simpa using h
    have hs : s = [] := by
      cases s with
      | nil => rfl
      | cons a u => simp at hrl; omega
    rw [hs] at hr
    simp [rotateCW] at hr

/-- C2 (amended): when the rotated shape has positive width `w`,
`rotate()` accepts the first position of `triedXs` — the origin followed
by the cumulative offsets `+1, −2, +3, …`, cut off by the abandon check,
which compares only freshly generated positive offsets against `w` and
fires before the shifted position is re-tested — at which the rotated
shape does not collide, and restores the original shape matrix and
origin when every tested position collides. -/
theorem rotate_kick_spec (b : Board) (p : Piece)
    (hw : 0 < ((rotateCW p.shape).headD []).length) :
    rotate b p =
      (match (triedXs ((rotateCW p.shape).headD []).length p.x).find?
          (fun q => !collides b ⟨rotateCW p.shape, q, p.y⟩) with
       | some q => ⟨rotateCW p.shape, q, p.y⟩
       | none => p) := by
  have hK : 0 < kickCount ((rotateCW p.shape).headD []).length := by
    unfold kickCount
    omega
  have hKle : kickCount ((rotateCW p.shape).headD []).length ≤
      ((rotateCW p.shape).headD []).length + 1 := by
    unfold kickCount
    omega
  have hgo := kickLoop_go b p.shape p.x ((rotateCW p.shape).headD []).length
    (rotateCW p.shape) p.y (((rotateCW p.shape).headD []).length + 2) 0 hK (by omega)
  have hdisp0 : p.x + disp 0 = p.x := by
    simp [disp]
  have hoff0 : off 0 = 1 := by
    simp [off]
  rw [hdisp0, hoff0] at hgo
  have hrange : List.range' 0 (kickCount ((rotateCW p.shape).headD []).length) =
      List.range (kickCount ((rotateCW p.shape).headD []).length) :=
    (List.range_eq_range' _).symm
  rw [Nat.sub_zero, hrange] at hgo
  show kickLoop b p.shape p.x ((rotateCW p.shape).headD []).length
      (((rotateCW p.shape).headD []).length + 2) ⟨rotateCW p.shape, p.x, p.y⟩ 1 = _
  rw [hgo]
  unfold triedXs
  rcases hf : (((List.range (kickCount ((rotateCW p.shape).headD []).length)).map
      fun t => p.x + disp t).find? fun q => !collides b ⟨rotateCW p.shape, q, p.y⟩)
    with _ | q
  · rfl
  · rfl

/-- C2 counterexample: with a single filled board cell at `(18, 5)` and
the O piece at `(4, 18)`, both the origin and the `+1` position collide
while the `−1` position (cumulative offsets `+1, −2`, each of magnitude
at most the rotated width 2) is free: the claim accepts `x = 3`, but
the source abandons the rotation and keeps `x = 4` because the freshly
generated offset `+3` exceeds the width before `x = 3` is ever tested. -/
theorem rotate_kick_cex :
    rotateClaimed kickCexBoard kickCexPiece ≠ rotate kickCexBoard kickCexPiece ∧
    (rotate kickCexBoard kickCexPiece).x = 4 ∧
    (rotateClaimed kickCexBoard kickCexPiece).x = 3 ∧
    collides kickCexBoard ⟨rotateCW kickCexPiece.shape, 3, kickCexPiece.y⟩ = false := by
  decide

theorem rotate_kick_spec_witness :
    0 < ((rotateCW (spawnPiece 2).shape).headD []).length ∧
    rotate emptyBoard (spawnPiece 2) =
      (match (triedXs ((rotateCW (spawnPiece 2).shape).headD []).length
          (spawnPiece 2).x).find?
          (fun q => !collides emptyBoard ⟨rotateCW (spawnPiece 2).shape, q,
            (spawnPiece 2).y⟩) with
       | some q => ⟨rotateCW (spawnPiece 2).shape, q, (spawnPiece 2).y⟩
       | none => spawnPiece 2) :=
  ⟨by decide, rotate_kick_spec emptyBoard (spawnPiece 2) (by decide)⟩

/-- C10: the kick loop always terminates — any fuel of at least `w + 2`
(where `w` is the rotated width) yields the very answer `rotate()`
computes, because the alternating offsets reach a positive value
exceeding `w` after at most `w + 1` shifts, so the loop accepts or
abandons within that bound. -/
theorem kickLoop_fuel_stable (b : Board) (p : Piece) (fuel : Nat)
    (hfuel : ((rotateCW p.shape).headD []).length + 2 ≤ fuel) :
    kickLoop b p.shape p.x ((rotateCW p.shape).headD []).length fuel
      ⟨rotateCW p.shape, p.x, p.y⟩ 1 = rotate b p := by
  by_cases hw : 0 < ((rotateCW p.shape).headD []).length
  · have hK : 0 < kickCount ((rotateCW p.shape).headD []).length := by
      unfold kickCount
      omega
    have hdisp0 : p.x + disp 0 = p.x := by simp [disp]
    have hoff0 : off 0 = 1 := by simp [off]
    have hgo1 := kickLoop_go b p.shape p.x ((rotateCW p.shape).headD []).length
      (rotateCW p.shape) p.y fuel 0 hK (by unfold kickCount at *; omega)
    have hgo2 := kickLoop_go b p.shape p.x ((rotateCW p.shape).headD []).length
      (rotateCW p.shape) p.y (((rotateCW p.shape).headD []).length + 2) 0 hK
      (by unfold kickCount; omega)
    rw [hdisp0, hoff0] at hgo1 hgo2
    show _ = kickLoop b p.shape p.x ((rotateCW p.shape).headD []).length
      (((rotateCW p.shape).headD []).length + 2) ⟨rotateCW p.shape, p.x, p.y⟩ 1
    rw [hgo1, hgo2]
  · have hnil : rotateCW p.shape = [] :=
      rotateCW_eq_nil_of_headD_len_zero p.shape (by omega)
    have hnc : collides b ⟨rotateCW p.shape, p.x, p.y⟩ = false := by
      rw [hnil]
      rfl
    obtain ⟨f, rfl⟩ : ∃ f, fuel = f + 1 := ⟨fuel - 1, by omega⟩
    show kickLoop b p.shape p.x _ (f + 1) ⟨rotateCW p.shape, p.x, p.y⟩ 1 = _
    rw [kickLoop]
    rw [hnc]
    show _ = kickLoop b p.shape p.x ((rotateCW p.shape).headD []).length
      (((rotateCW p.shape).headD []).length + 2) ⟨rotateCW p.shape, p.x, p.y⟩ 1
    rw [show ((rotateCW p.shape).headD []).length + 2 =
      (((rotateCW p.shape).headD []).length + 1) + 1 from rfl]
    rw [kickLoop]
    rw [hnc]
    simp

/-! ### C3: the line sweep -/

theorem getD_append_cons {α : Type} (as : List α) (b : α) (bs : List α) (d : α) :
    (as ++ b :: bs).getD as.length d = b := by
  induction as with
  | nil => rfl
  | cons a t ih => simpa using ih

theorem eraseIdx_append_cons {α : Type} (as : List α) (b : α) (bs : List α) :
    (as ++ b :: bs).eraseIdx as.length = as ++ bs := by
  induction as with
  | nil => rfl
  | cons a t ih =>
    show (a :: (t ++ b :: bs)).eraseIdx (t.length + 1) = a :: (t ++ bs)
    rw [List.eraseIdx_cons_succ, ih]

theorem isFull_zeroRow : isFull zeroRow = false := by decide

/-- Closed form of the `sweepLines` scan: examining positions
`mid.length, …, 1` of the board `r0 :: mid ++ suf` removes exactly the
full rows of `mid`, prepends one zero row per removal, and — because a
removal shifts the head row down into the scanned range — additionally
removes `r0` exactly when `r0` is full and some row of `mid` was full. -/
theorem sweepLoop_spec (fuel : Nat) :
    ∀ (r0 : Row) (mid suf : List Row) (c : Nat),
      mid.length + 1 + (mid.filter fun r => isFull r).length +
        (if isFull r0 = true then 1 else 0) ≤ fuel →
      sweepLoop (r0 :: (mid ++ suf)) mid.length c fuel =
        (if isFull r0 = true ∧ (mid.filter fun r => isFull r).length ≠ 0 then
          (List.replicate ((mid.filter fun r => isFull r).length + 1) zeroRow ++
            ((mid.filter fun r => !isFull r) ++ suf),
           c + ((mid.filter fun r => isFull r).length + 1))
        else
          (List.replicate (mid.filter fun r => isFull r).length zeroRow ++
            r0 :: ((mid.filter fun r => !isFull r) ++ suf),
           c + (mid.filter fun r => isFull r).length)) := by
  induction fuel with
  | zero =>
    intro r0 mid suf c hb
    exfalso
    by_cases h : isFull r0 = true <;> simp [h] at hb
  | succ f ih =>
    intro r0 mid suf c hb
    rcases List.eq_nil_or_concat mid with rfl | ⟨mid', last, rfl⟩
    · simp [sweepLoop]
    · rw [List.concat_eq_append] at hb ⊢
      have hylen : (mid' ++ [last]).length = mid'.length + 1 := by simp
      rw [hylen]
      rw [sweepLoop]
      rw [if_neg (by omega : ¬mid'.length + 1 = 0)]
      have hgetD : (r0 :: ((mid' ++ [last]) ++ suf)).getD (mid'.length + 1) [] = last := by
        rw [List.getD_cons_succ, List.append_assoc, List.singleton_append,
          getD_append_cons]
      rw [hgetD]
      have hkfull : ((mid' ++ [last]).filter fun r => isFull r) =
          (mid'.filter fun r => isFull r) ++ List.filter (fun r => isFull r) [last] := by
        rw [List.filter_append]
      have hknot : ((mid' ++ [last]).filter fun r => !isFull r) =
          (mid'.filter fun r => !isFull r) ++ List.filter (fun r => !isFull r) [last] := by
        rw [List.filter_append]
      by_cases hlast : isFull last = true
      · rw [if_pos hlast]
        have herase : (r0 :: ((mid' ++ [last]) ++ suf)).eraseIdx (mid'.length + 1) =
            r0 :: (mid' ++ suf) := by
          rw [List.append_assoc, List.singleton_append, List.eraseIdx_cons_succ,
            eraseIdx_append_cons]
        rw [herase]
        have hstep : sweepLoop (zeroRow :: (r0 :: (mid' ++ suf))) (mid'.length + 1)
            (c + 1) f =
            sweepLoop (zeroRow :: ((r0 :: mid') ++ suf)) ((r0 :: mid').length)
              (c + 1) f := by
          simp
        have e1 : ((mid' ++ [last]).filter fun r => isFull r).length =
            (mid'.filter fun r => isFull r).length + 1 := by
          simp [List.filter_append, hlast]
        have hkeq : ((r0 :: mid').filter fun r => isFull r).length =
            (mid'.filter fun r => isFull r).length +
              (if isFull r0 = true then 1 else 0) := by
          rw [List.filter_cons]
          by_cases hr0 : isFull r0 = true <;> simp [hr0]
        rw [hstep, ih zeroRow (r0 :: mid') suf (c + 1) ?hbound]
        case hbound =>
          rw [hylen, e1] at hb
          rw [List.length_cons, hkeq, isFull_zeroRow, if_neg Bool.false_ne_true]
          by_cases hr0 : isFull r0 = true
          · rw [if_pos hr0] at hb ⊢
            omega
          · rw [if_neg hr0] at hb ⊢
            omega
        rw [if_neg (by rw [isFull_zeroRow]; simp)]
        by_cases hr0 : isFull r0 = true
        · rw [if_pos ⟨hr0, by
            rw [hkfull, List.filter_cons, hlast]
            simp⟩]
          have hfilter0 : ((r0 :: mid').filter fun r => !isFull r) =
              mid'.filter fun r => !isFull r := by
            rw [List.filter_cons]
            simp [hr0]
          rw [hfilter0, hkeq, hr0]
          rw [hkfull, hknot]
          simp only [List.filter_cons, hlast, List.filter_nil, if_pos rfl]
          have hrep : ∀ (n : Nat) (l : List Row),
              List.replicate n zeroRow ++ zeroRow :: l =
                List.replicate (n + 1) zeroRow ++ l := by
            intro n l
            rw [List.replicate_succ']
            simp
          rw [hrep, Prod.mk.injEq]
          refine ⟨by simp, ?_⟩
          simp
          omega
        · rw [if_neg (by simp [hr0])]
          have hfilter0 : ((r0 :: mid').filter fun r => !isFull r) =
              r0 :: (mid'.filter fun r => !isFull r) := by
            rw [List.filter_cons]
            simp [hr0]
          rw [hfilter0, hkeq]
          rw [hkfull, hknot]
          simp only [List.filter_cons, hlast, List.filter_nil, if_pos rfl]
          have hrep : ∀ (n : Nat) (l : List Row),
              List.replicate n zeroRow ++ zeroRow :: l =
                List.replicate (n + 1) zeroRow ++ l := by
            intro n l
            rw [List.replicate_succ']
            simp
          rw [hrep, Prod.mk.injEq]
          refine ⟨by simp [hr0], ?_⟩
          simp [hr0]
          omega
      · rw [if_neg hlast]
        have hstep : (r0 : Row) :: ((mid' ++ [last]) ++ suf) =
            r0 :: (mid' ++ (last :: suf)) := by
          simp
        have hy : mid'.length + 1 - 1 = mid'.length := by omega
        rw [hy, hstep, ih r0 mid' (last :: suf) c ?hbound2]
        case hbound2 =>
          have : ((mid' ++ [last]).filter fun r => isFull r).length =
              (mid'.filter fun r => isFull r).length := by
            rw [hkfull, List.filter_cons, if_neg (by simp [hlast])]
            simp
          rw [hylen, this] at hb
          omega
        have hsamek : ((mid' ++ [last]).filter fun r => isFull r).length =
            (mid'.filter fun r => isFull r).length := by
          rw [hkfull, List.filter_cons, if_neg (by simp [hlast])]
          simp
        have hsamenot : ((mid' ++ [last]).filter fun r => !isFull r) ++ suf =
            (mid'.filter fun r => !isFull r) ++ (last :: suf) := by
          rw [hknot, List.filter_cons, if_pos (by simp [hlast])]
          simp
        rw [hsamek, hsamenot]

/-- Closed form of `sweepLines` on any nonempty board. -/
theorem sweepLines_closed (r0 : Row) (rest : List Row) :
    sweepLines (r0 :: rest) =
      (if isFull r0 = true ∧ (rest.filter fun r => isFull r).length ≠ 0 then
        (List.replicate ((rest.filter fun r => isFull r).length + 1) zeroRow ++
          (rest.filter fun r => !isFull r),
         (rest.filter fun r => isFull r).length + 1)
      else
        (List.replicate (rest.filter fun r => isFull r).length zeroRow ++
          r0 :: (rest.filter fun r => !isFull r),
         (rest.filter fun r => isFull r).length)) := by
  unfold sweepLines
  rw [show ((r0 :: rest : List Row)) = r0 :: (rest ++ []) from by simp]
  rw [show ((r0 :: (rest ++ []) : List Row)).length - 1 = rest.length from by simp]
  rw [show 2 * ((r0 :: (rest ++ []) : List Row)).length + 1 = 2 * rest.length + 3
    from by simp; omega]
  have hbf : rest.length + 1 + (rest.filter fun r => isFull r).length +
      (if isFull r0 = true then 1 else 0) ≤ 2 * rest.length + 3 := by
    have h1 : (rest.filter fun r => isFull r).length ≤ rest.length :=
      List.length_filter_le _ _
    by_cases hr0 : isFull r0 = true
    · rw [if_pos hr0]
      omega
    · rw [if_neg hr0]
      omega
  rw [sweepLoop_spec (2 * rest.length + 3) r0 rest [] 0 hbf]
  by_cases hc : isFull r0 = true ∧ (rest.filter fun r => isFull r).length ≠ 0
  · rw [if_pos hc, if_pos hc]
    simp
  · rw [if_neg hc, if_neg hc]
    simp

/-- C3 (amended): `sweepLines` removes every fully-occupied row of the
tail (indices `[1, ROWS)`), inserting one all-zero row at the top per
removal and re-examining the shifted-down row; the scan never examines
index 0, so a fully-occupied row 0 survives when no lower row is full —
but when some lower row is full, row 0 is shifted down into the scanned
range and is then removed as well if it is full. -/
theorem sweepLines_spec (r0 : Row) (rest : List Row) :
    sweepLines (r0 :: rest) =
      (if isFull r0 = true ∧ (rest.filter fun r => isFull r).length ≠ 0 then
        (List.replicate ((rest.filter fun r => isFull r).length + 1) zeroRow ++
          (rest.filter fun r => !isFull r),
         (rest.filter fun r => isFull r).length + 1)
      else
        (List.replicate (rest.filter fun r => isFull r).length zeroRow ++
          r0 :: (rest.filter fun r => !isFull r),
         (rest.filter fun r => isFull r).length)) :=
  sweepLines_closed r0 rest

/-- C3 counterexample: on the board whose rows 0 and 19 are both full,
the sweep clears two lines: the bottom row is removed, row 0 (all 1s)
shifts down to index 1, is re-examined there and removed as well — so a
fully-occupied row 0 does not survive the sweep, contrary to the claim
that row 0 is never removed even when fully occupied. -/
theorem sweepLines_cex :
    sweepCexBoard.headD [] = List.replicate 10 1 ∧
    isFull (List.replicate 10 1) = true ∧
    (sweepLines sweepCexBoard).2 = 2 ∧
    (sweepLines sweepCexBoard).1.contains (List.replicate 10 1) = false := by
  decide

theorem kickLoop_fuel_stable_witness :
    ((rotateCW kickCexPiece.shape).headD []).length + 2 ≤ 50 ∧
    kickLoop kickCexBoard kickCexPiece.shape kickCexPiece.x
        ((rotateCW kickCexPiece.shape).headD []).length 50
        ⟨rotateCW kickCexPiece.shape, kickCexPiece.x, kickCexPiece.y⟩ 1 =
      rotate kickCexBoard kickCexPiece :=
  ⟨by decide, kickLoop_fuel_stable kickCexBoard kickCexPiece 50 (by decide)⟩

/-! ### C7: the reachable-state invariant -/

theorem snd_mem_of_mem_enum {α : Type} {l : List α} {pr : Nat × α}
    (h : pr ∈ l.enum) : pr.2 ∈ l := by
  rw [List.enum_eq_zip_range] at h
  rcases pr with ⟨i, a⟩
  exact (List.of_mem_zip h).2

theorem rowOk_zeroRow : rowOk zeroRow := by decide

theorem shapeOk_SHAPES (t : Nat) : shapeOk (SHAPES.getD t []) := by
  by_cases h : t < 8
  · interval_cases t <;> decide
  · rw [List.getD_eq_default _ _ (by
      have : SHAPES.length = 8 := rfl
      omega)]
    intro row hrow
    simp at hrow

theorem shapeOk_rotateCW (s : List (List Nat)) (h : shapeOk s) :
    shapeOk (rotateCW s) := by
  intro row hrow v hv
  simp only [rotateCW, List.mem_map] at hrow
  obtain ⟨c, _, rfl⟩ := hrow
  rw [List.mem_reverse, List.mem_map] at hv
  obtain ⟨r, hr, rfl⟩ := hv
  by_cases hc : c < r.length
  · rw [List.getD_eq_getElem _ _ hc]
    exact h r hr _ (List.getElem_mem hc)
  · rw [List.getD_eq_default _ _ (by omega)]
    exact Nat.zero_le 7

theorem boardOk_setCell (b : Board) (r c : Int) (v : Nat) (hb : boardOk b)
    (hv : v ≤ 7) : boardOk (setCell b r c v) := by
  unfold setCell
  split
  · exact hb
  · by_cases hr : r.toNat < b.length
    · refine ⟨by rw [List.length_set]; exact hb.1, ?_⟩
      intro row hrow
      rcases List.mem_or_eq_of_mem_set hrow with hmem | rfl
      · exact hb.2 row hmem
      · have hib : b[r.toNat]? = some b[r.toNat] := List.getElem?_eq_getElem hr
        rw [hib]
        have hrowOk : rowOk b[r.toNat] := hb.2 _ (List.getElem_mem hr)
        refine ⟨by rw [List.length_set]; exact hrowOk.1, ?_⟩
        intro w hw
        rcases List.mem_or_eq_of_mem_set hw with hmem | rfl
        · exact hrowOk.2 w hmem
        · exact hv
    · rw [List.set_eq_of_length_le (by omega)]
      exact hb

theorem boardOk_merge (b : Board) (p : Piece) (hb : boardOk b)
    (hs : shapeOk p.shape) : boardOk (merge b p) := by
  unfold merge
  have inner : ∀ (cells : List (Nat × Nat)) (acc : Board) (yy : Int),
      boardOk acc → (∀ pc ∈ cells, pc.2 ≤ 7) →
      boardOk (cells.foldl
        (fun acc2 pc =>
          if pc.2 > 0 then setCell acc2 yy (p.x + pc.1) pc.2 else acc2) acc) := by
    intro cells
    induction cells with
    | nil => intro acc yy hacc _; exact hacc
    | cons hd tl ih =>
      intro acc yy hacc hv
      rw [List.foldl_cons]
      refine ih _ yy ?_ (fun pc hpc => hv pc (List.mem_cons_of_mem hd hpc))
      by_cases hpos : hd.2 > 0
      · rw [if_pos hpos]
        exact boardOk_setCell _ _ _ _ hacc (hv hd (List.mem_cons_self hd tl))
      · rw [if_neg hpos]
        exact hacc
  have outer : ∀ (rows : List (Nat × List Nat)) (acc : Board),
      boardOk acc → (∀ pr ∈ rows, ∀ v ∈ pr.2, v ≤ 7) →
      boardOk (rows.foldl
        (fun acc pr =>
          pr.2.enum.foldl
            (fun acc2 pc =>
              if pc.2 > 0 then setCell acc2 (p.y + pr.1) (p.x + pc.1) pc.2
              else acc2) acc) acc) := by
    intro rows
    induction rows with
    | nil => intro acc hacc _; exact hacc
    | cons hd tl ih =>
      intro acc hacc hv
      rw [List.foldl_cons]
      refine ih _ ?_ (fun pr hpr => hv pr (List.mem_cons_of_mem hd hpr))
      refine inner _ _ _ hacc ?_
      intro pc hpc
      exact hv hd (List.mem_cons_self hd tl) pc.2 (snd_mem_of_mem_enum hpc)
  refine outer _ b hb ?_
  intro pr hpr v hv
  exact hs pr.2 (snd_mem_of_mem_enum hpr) v hv

theorem boardOk_sweepLines (b : Board) (hb : boardOk b) :
    boardOk (sweepLines b).1 := by
  obtain ⟨hlen, hrows⟩ := hb
  obtain ⟨r0, rest, rfl⟩ : ∃ r0 rest, b = r0 :: rest := by
    cases b with
    | nil => exact absurd hlen (by simp [ROWS])
    | cons a t => exact ⟨a, t, rfl⟩
  have hpart : (rest.filter fun r => isFull r).length +
      (rest.filter fun r => !isFull r).length = rest.length :=
    (List.length_eq_length_filter_add (fun r => isFull r)).symm
  have hrestlen : rest.length = ROWS - 1 := by
    simp only [List.length_cons] at hlen
    omega
  have hmemOk : ∀ row ∈ (rest.filter fun r => !isFull r), rowOk row := by
    intro row hrow
    exact hrows row (List.mem_cons_of_mem r0 (List.mem_of_mem_filter hrow))
  rw [sweepLines_closed r0 rest]
  by_cases hc : isFull r0 = true ∧ (rest.filter fun r => isFull r).length ≠ 0
  · rw [if_pos hc]
    refine ⟨?_, ?_⟩
    · simp only [List.length_append, List.length_replicate]
      simp only [ROWS] at *
      omega
    · intro row hrow
      rcases List.mem_append.1 hrow with hmem | hmem
      · rw [List.eq_of_mem_replicate hmem]
        exact rowOk_zeroRow
      · exact hmemOk row hmem
  · rw [if_neg hc]
    refine ⟨?_, ?_⟩
    · simp only [List.length_append, List.length_replicate, List.length_cons]
      simp only [ROWS] at *
      omega
    · intro row hrow
      rcases List.mem_append.1 hrow with hmem | hmem
      · rw [List.eq_of_mem_replicate hmem]
        exact rowOk_zeroRow
      · rcases List.mem_cons.1 hmem with rfl | hmem2
        · exact hrows row (List.mem_cons_self row rest)
        · exact hmemOk row hmem2

theorem kickLoop_shape (b : Board) (os : List (List Nat)) (ox : Int) (w : Nat) :
    ∀ (fuel : Nat) (p : Piece) (offset : Int),
      (kickLoop b os ox w fuel p offset).shape = p.shape ∨
      (kickLoop b os ox w fuel p offset).shape = os := by
  intro fuel
  induction fuel with
  | zero => intro p offset; right; rfl
  | succ f ih =>
    intro p offset
    rw [kickLoop]
    by_cases hc : collides b p
    · rw [if_pos hc]
      by_cases habandon :
          -(offset + (if offset > 0 then 1 else -1)) > (w : Int)
      · rw [if_pos habandon]
        right
        rfl
      · rw [if_neg habandon]
        exact ih _ _
    · rw [if_neg hc]
      left
      rfl

theorem stateOk_newPiece (typeId : Nat) (st : GameState) (h : stateOk st) :
    stateOk (newPiece typeId st) := by
  refine ⟨?_, ?_⟩
  · rw [newPiece_board]
    exact h.1
  · rw [newPiece_piece]
    exact shapeOk_SHAPES typeId

theorem stateOk_move (st : GameState) (d : Int) (h : stateOk st) :
    stateOk (move st d) := by
  simp only [move]
  split
  · exact h
  · exact ⟨h.1, h.2⟩

theorem stateOk_rotate (st : GameState) (h : stateOk st) :
    stateOk { st with piece := rotate st.board st.piece } := by
  refine ⟨h.1, ?_⟩
  show shapeOk (rotate st.board st.piece).shape
  unfold rotate
  rcases kickLoop_shape st.board st.piece.shape st.piece.x
      (((rotateCW st.piece.shape).headD []).length)
      ((((rotateCW st.piece.shape).headD []).length) + 2)
      { st.piece with shape := rotateCW st.piece.shape } 1 with hsh | hsh
  · rw [hsh]
    exact shapeOk_rotateCW _ h.2
  · rw [hsh]
    exact h.2

theorem stateOk_drop (typeId : Nat) (st : GameState) (h : stateOk st) :
    stateOk (drop typeId st) := by
  simp only [drop]
  split
  · refine ⟨?_, ?_⟩
    · show boardOk (newPiece typeId _).board
      rw [newPiece_board]
      exact boardOk_sweepLines _ (boardOk_merge _ _ h.1 h.2)
    · show shapeOk (newPiece typeId _).piece.shape
      rw [newPiece_piece]
      exact shapeOk_SHAPES typeId
  · exact ⟨h.1, h.2⟩

theorem stateOk_handleKeyDown (k : Key) (typeId : Nat) (st : GameState)
    (h : stateOk st) : stateOk (handleKeyDown k typeId st) := by
  simp only [handleKeyDown]
  split
  · exact h
  · cases k with
    | left => exact stateOk_move st (-1) h
    | right => exact stateOk_move st 1 h
    | down => exact stateOk_drop typeId st h
    | up => exact stateOk_rotate st h

theorem stateOk_gameLoop (delta : Int) (typeId : Nat) (st : GameState)
    (h : stateOk st) : stateOk (gameLoop delta typeId st).state := by
  by_cases hg : st.gameOver = true
  · rw [show (gameLoop delta typeId st).state = st from by simp [gameLoop, hg]]
    exact h
  · by_cases hd : st.dropCounter + delta > 1000
    · rw [show (gameLoop delta typeId st).state =
        drop typeId { st with dropCounter := st.dropCounter + delta } from by
          simp [gameLoop, hg, hd]]
      exact stateOk_drop typeId _ ⟨h.1, h.2⟩
    · rw [show (gameLoop delta typeId st).state =
        { st with dropCounter := st.dropCounter + delta } from by
          simp [gameLoop, hg, hd]]
      exact ⟨h.1, h.2⟩

theorem stateOk_reachable (st : GameState) (h : Reachable st) : stateOk st := by
  induction h with
  | init typeId h1 h2 =>
    refine stateOk_newPiece typeId _ ⟨by decide, ?_⟩
    intro row hrow
    simp at hrow
  | step st e hv h ih =>
    cases e with
    | key k typeId => exact stateOk_handleKeyDown k typeId st ih
    | tick delta typeId => exact stateOk_gameLoop delta typeId st ih

/-- C7: every reachable game state has a board of exactly `ROWS` rows of
`COLS` cells each, every cell holding a value in `{0, …, 7}` — all the
operations reachable through key events and loop ticks preserve the
dimensions and the cell range. -/
theorem reachable_boardOk (st : GameState) (h : Reachable st) :
    st.board.length = ROWS ∧
      ∀ row ∈ st.board, row.length = COLS ∧ ∀ v ∈ row, v ≤ 7 := by
  have hok := stateOk_reachable st h
  exact ⟨hok.1.1, fun row hr => ⟨(hok.1.2 row hr).1, (hok.1.2 row hr).2⟩⟩

theorem reachable_boardOk_witness :
    Reachable (applyEvent (Event.tick 2000 3) (initState 1)) ∧
    ((applyEvent (Event.tick 2000 3) (initState 1)).board.length = ROWS ∧
      ∀ row ∈ (applyEvent (Event.tick 2000 3) (initState 1)).board,
        row.length = COLS ∧ ∀ v ∈ row, v ≤ 7) :=
  have hr : Reachable (applyEvent (Event.tick 2000 3) (initState 1)) :=
    Reachable.step _ _ (by constructor <;> omega)
      (Reachable.init 1 (by omega) (by omega))
  ⟨hr, reachable_boardOk _ hr⟩

end Newtube
